import Mathlib

/-!
# Visitor request lifecycle: the Mongoose model and the request validator

A shallow embedding of `backend/models/VisitorRequest.js` (schema validators,
defaults and the two `pre("save")` hooks) and of
`backend/middleware/validation.js` (`validateVisitorRequest`,
`handleValidationErrors`), followed by the properties proved about them.

Conventions of the embedding:

* instants (`Date.now()`, `new Date()`, a stored `Date`) are milliseconds since
  the epoch; clock reads are `Nat`, a stored date is an `Int`;
* `Math.random().toString(36)` is represented by the base-36 digits it prints
  after `0.` (the empty list is the draw `0`, printed `"0"`);
* a document is the in-memory object the hooks receive as `this`; a stored
  record is what the collection holds.
-/

namespace Vms

/-! ## Data model -/

/-- The six values of the `status` enum of the schema. -/
inductive Status
  | pending
  | approved
  | declined
  | checked_in
  | checked_out
  | expired
  deriving DecidableEq

/-- The lifecycle fields of a stored `VisitorRequest`. -/
structure Stored where
  scheduledDate : Int
  status : Status
  approvalCode : Option String
  deriving DecidableEq

/-- The in-memory document handed to the `pre("save")` hooks: the lifecycle fields
plus `statusModified`, the value of `this.isModified("status")`. -/
structure Document where
  scheduledDate : Int
  status : Status
  statusModified : Bool
  approvalCode : Option String
  deriving DecidableEq

/-- JavaScript truthiness of `this.approvalCode`: `undefined` and the empty string
are falsy, every other string is truthy. -/
def truthy : Option String → Bool
  | none => false
  | some c => c != ""

/-- The three clock reads of one `save()`: `new Date()` in the `scheduledDate`
validator, `Date.now()` in the approval-code hook and `new Date()` in the
auto-expire hook. -/
structure Clock where
  validateAt : Nat
  codeAt : Nat
  expireAt : Nat
  deriving DecidableEq

/-- A clock whose three reads return the same instant. -/
def Clock.instant (t : Nat) : Clock := ⟨t, t, t⟩

/-! ## Approval code generation -/

/-- The digits `Number.prototype.toString(36)` prints. -/
def base36Digits : List Char := "0123456789abcdefghijklmnopqrstuvwxyz".toList

/-- The character printed for one base-36 digit. -/
def digit36 (d : Fin 36) : Char := base36Digits.getD d.val '0'

/-- `Math.random().toString(36)` for a draw whose base-36 expansion after the point
is `frac`: `"0"` for the draw zero, `"0."` followed by the digits otherwise. -/
def randomToString36 (frac : List (Fin 36)) : String :=
  if frac = [] then "0" else "0." ++ String.mk (frac.map digit36)

/-- `s.slice(-n)`: the last `n` characters of `s`, all of `s` when it is shorter. -/
def jsSliceLast (n : Nat) (s : String) : String :=
  String.mk (s.toList.drop (s.toList.length - n))

/-- `s.substr(start, len)`: at most `len` characters from index `start`. -/
def jsSubstr (start len : Nat) (s : String) : String :=
  String.mk ((s.toList.drop start).take len)

/-- `s.toUpperCase()` on the ASCII strings that occur here. -/
def jsToUpperCase (s : String) : String := String.mk (s.toList.map Char.toUpper)

/-- The right-hand side of the assignment in the approval-code hook:
`"VIS" + Date.now().toString().slice(-6)
  + Math.random().toString(36).substr(2, 3).toUpperCase()`. -/
def generateApprovalCode (now : Nat) (frac : List (Fin 36)) : String :=
  "VIS" ++ jsSliceLast 6 (toString now)
    ++ jsToUpperCase (jsSubstr 2 3 (randomToString36 frac))

/-! ## The `pre("save")` hooks -/

/-- First hook, "Generate approval code when approved". -/
def approvalCodeHook (now : Nat) (frac : List (Fin 36)) (d : Document) : Document :=
  if d.statusModified && d.status == Status.approved && !truthy d.approvalCode then
    { d with approvalCode := some (generateApprovalCode now frac) }
  else d

/-- Second hook, "Auto-expire old pending requests". The assignment to `status`
marks the path modified. -/
def autoExpireHook (now : Nat) (d : Document) : Document :=
  if d.status == Status.pending && decide (d.scheduledDate < (now : Int)) then
    { d with status := Status.expired, statusModified := true }
  else d

/-- The two hooks in registration order. -/
def preSave (c : Clock) (frac : List (Fin 36)) (d : Document) : Document :=
  autoExpireHook c.expireAt (approvalCodeHook c.codeAt frac d)

/-! ## Schema validators -/

/-- The characters `String.prototype.trim` strips (ECMAScript `WhiteSpace` and
`LineTerminator`). -/
def jsWhitespace (c : Char) : Bool :=
  let n := c.toNat
  (9 ≤ n && n ≤ 13) || n == 32 || n == 160 || n == 5760 || (8192 ≤ n && n ≤ 8202)
    || n == 8232 || n == 8233 || n == 8239 || n == 8287 || n == 12288 || n == 65279

/-- The schema option `trim: true`. -/
def jsTrim (s : String) : String :=
  String.mk ((s.toList.dropWhile jsWhitespace).reverse.dropWhile jsWhitespace).reverse

/-- The schema option `lowercase: true` on the characters that matter to the email
pattern: the ASCII letters, and the Kelvin sign, whose lower case is `k`. -/
def jsToLowerCase (s : String) : String :=
  String.mk (s.toList.map fun c => if c.toNat == 8490 then 'k' else c.toLower)

/-- The `length` of a JavaScript string: UTF-16 code units. -/
def jsLength (s : String) : Nat :=
  (s.toList.map fun c => if 65536 ≤ c.toNat then 2 else 1).sum

/-- A character class listing its members. -/
def oneOf (cs : String) : RegularExpression Char :=
  cs.toList.foldr (fun c r => RegularExpression.char c + r) 0

/-- The pattern `r?`. -/
def opt (r : RegularExpression Char) : RegularExpression Char := 1 + r

/-- The pattern `r+`. -/
def many1 (r : RegularExpression Char) : RegularExpression Char := r * r.star

/-- The pattern `r{0,n}`. -/
def upTo : Nat → RegularExpression Char → RegularExpression Char
  | 0, _ => 1
  | n + 1, r => opt (r * upTo n r)

/-- The class `\d` (also written `[0-9]`, `[\d]`). -/
def reDigit : RegularExpression Char := oneOf "0123456789"

/-- The class `\w`. -/
def reWord : RegularExpression Char :=
  oneOf "ABCDEFGHIJKLMNOPQRSTUVWXYZabcdefghijklmnopqrstuvwxyz0123456789_"

/-- The pattern `/^[+]?[1-9][\d]{0,15}$/` of `visitorPhone`. -/
def phonePattern : RegularExpression Char :=
  opt (oneOf "+") * oneOf "123456789" * upTo 15 reDigit

/-- The pattern `/^\w+([.-]?\w+)*@\w+([.-]?\w+)*(\.\w{2,3})+$/` of `visitorEmail`. -/
def emailPattern : RegularExpression Char :=
  many1 reWord * (opt (oneOf ".-") * many1 reWord).star * RegularExpression.char '@'
    * many1 reWord * (opt (oneOf ".-") * many1 reWord).star
    * many1 (RegularExpression.char '.' * (reWord * reWord * opt reWord))

/-- The pattern `/^([0-1]?[0-9]|2[0-3]):[0-5][0-9]$/` of `scheduledTime`. -/
def timePattern : RegularExpression Char :=
  (opt (oneOf "01") * oneOf "0123456789" + RegularExpression.char '2' * oneOf "0123")
    * RegularExpression.char ':' * oneOf "012345" * oneOf "0123456789"

/-- `pattern.test(s)` for a pattern anchored at both ends. -/
def regexTest (p : RegularExpression Char) (s : String) : Bool := p.rmatch s.toList

/-- Mongoose `required` on a `String` path: a string of non-zero length. -/
def requiredString : Option String → Bool
  | some s => s != ""
  | none => false

/-- Mongoose `maxlength`: absent values pass. -/
def maxlengthOk (n : Nat) : Option String → Bool
  | some s => decide (jsLength s ≤ n)
  | none => true

/-- Mongoose `match`: absent values and the empty string pass. -/
def matchOk (p : RegularExpression Char) : Option String → Bool
  | some s => s == "" || regexTest p s
  | none => true

/-- Milliseconds in a day. -/
def msPerDay : Int := 86400000

/-- `new Date(now).setHours(0, 0, 0, 0)` where local time is UTC plus `tz`
milliseconds: the instant of the local midnight that starts the day of `now`. -/
def startOfLocalDay (tz : Int) (now : Nat) : Int :=
  (now : Int) - ((now : Int) + tz) % msPerDay

/-- The custom validator of `scheduledDate`:
`(date) => date >= new Date().setHours(0, 0, 0, 0)`. -/
def scheduledDateValidator (tz : Int) (now : Nat) (date : Int) : Bool :=
  decide (date ≥ startOfLocalDay tz now)

/-- The sub-document `visitDuration` with its defaults. -/
structure VisitDuration where
  hours : Int := 0
  days : Int := 0
  deriving DecidableEq

/-- What a requester submits: the schema paths other than the review fields,
`status`, `approvalCode` and `priority`, which take their defaults. -/
structure Candidate where
  visitorName : Option String
  visitorId : Option String
  visitorPhone : Option String
  visitorEmail : Option String := none
  purpose : Option String
  itemsBrought : List String := []
  department : Option String
  requestedBy : Option String
  visitDuration : VisitDuration := {}
  scheduledDate : Option Int
  scheduledTime : Option String

/-- Document validation of a new request: every validator the schema declares,
run on the values after the `trim` and `lowercase` setters. -/
def schemaValid (tz : Int) (now : Nat) (c : Candidate) : Bool :=
  requiredString (c.visitorName.map jsTrim) && maxlengthOk 100 (c.visitorName.map jsTrim)
    && requiredString (c.visitorId.map jsTrim) && maxlengthOk 50 (c.visitorId.map jsTrim)
    && requiredString c.visitorPhone && matchOk phonePattern c.visitorPhone
    && matchOk emailPattern (c.visitorEmail.map fun s => jsToLowerCase (jsTrim s))
    && requiredString c.purpose && maxlengthOk 500 c.purpose
    && c.itemsBrought.all (fun i => maxlengthOk 100 (some (jsTrim i)))
    && requiredString (c.department.map jsTrim)
    && c.requestedBy.isSome
    && decide (0 ≤ c.visitDuration.hours) && decide (c.visitDuration.hours ≤ 23)
    && decide (0 ≤ c.visitDuration.days) && decide (c.visitDuration.days ≤ 30)
    && (match c.scheduledDate with
        | some d => scheduledDateValidator tz now d
        | none => false)
    && requiredString c.scheduledTime && matchOk timePattern c.scheduledTime

/-! ## Saving -/

/-- A document freshly loaded from its stored record: nothing is modified. -/
def load (r : Stored) : Document :=
  { scheduledDate := r.scheduledDate, status := r.status, statusModified := false,
    approvalCode := r.approvalCode }

/-- The assignment `doc.status = s`: the path is marked modified when the value
differs from the one it replaces. -/
def setStatus (s : Status) (d : Document) : Document :=
  { d with status := s, statusModified := d.statusModified || decide (s ≠ d.status) }

/-- The lifecycle fields a saved document leaves in the collection. -/
def Document.toStored (d : Document) : Stored :=
  { scheduledDate := d.scheduledDate, status := d.status, approvalCode := d.approvalCode }

/-- The message of the `scheduledDate` validator. -/
def pastDateMessage : String := "Scheduled date cannot be in the past"

/-- `doc.save()` on a loaded document: document validation, then the hooks, then the
write. `revalidate` says whether validation runs the `scheduledDate` validator on
this save (Mongoose does by default, also for an unmodified path; the caller's save
options can turn it off). The other validators do not depend on the clock or on the
lifecycle fields, and `status` is one of the enum values by its type. -/
def Document.save (tz : Int) (revalidate : Bool) (c : Clock) (frac : List (Fin 36))
    (d : Document) : Except String Stored :=
  if revalidate && !scheduledDateValidator tz c.validateAt d.scheduledDate then
    Except.error pastDateMessage
  else
    Except.ok (preSave c frac d).toStored

/-- One save of a stored record: an optional assignment to `status`, the clock reads
and the random draw of the hooks, and whether the date is validated again. -/
structure SaveOp where
  assign : Option Status
  clock : Clock
  frac : List (Fin 36)
  revalidate : Bool

/-- The document a save operates on: the loaded record after the assignment. -/
def SaveOp.document (op : SaveOp) (r : Stored) : Document :=
  match op.assign with
  | some s => setStatus s (load r)
  | none => load r

/-- Load the record, assign, save. -/
def saveRecord (tz : Int) (r : Stored) (op : SaveOp) : Except String Stored :=
  (op.document r).save tz op.revalidate op.clock op.frac

/-- Creation of a request from a candidate: `status` takes its default `"pending"`
(a default is not a modification), `approvalCode` is absent, and the new document
is validated in full and saved. -/
def create (tz : Int) (c : Clock) (frac : List (Fin 36)) (cand : Candidate) :
    Except String Stored :=
  match cand.scheduledDate with
  | some date =>
    if schemaValid tz c.validateAt cand then
      Except.ok (preSave c frac
        { scheduledDate := date, status := Status.pending, statusModified := false,
          approvalCode := none }).toStored
    else
      Except.error "VisitorRequest validation failed"
  | none => Except.error "VisitorRequest validation failed"

/-- The stored record after a run of saves, with the statuses the successful saves
persisted (most recent first). A failed save writes nothing. -/
structure History where
  record : Stored
  persisted : List Status

/-- One step of a run of saves. -/
def History.step (tz : Int) (h : History) (op : SaveOp) : History :=
  match saveRecord tz h.record op with
  | Except.ok r => { record := r, persisted := r.status :: h.persisted }
  | Except.error _ => h

/-- A run of saves on a record, oldest first. -/
def runSaves (tz : Int) (r : Stored) (ops : List SaveOp) : History :=
  ops.foldl (History.step tz) { record := r, persisted := [] }

/-! ## The shape of an approval code -/

/-- The six decimal digits of `m`, most significant first. -/
def sixDigits (m : Nat) : List Char :=
  [Nat.digitChar (m / 100000 % 10), Nat.digitChar (m / 10000 % 10),
   Nat.digitChar (m / 1000 % 10), Nat.digitChar (m / 100 % 10),
   Nat.digitChar (m / 10 % 10), Nat.digitChar (m % 10)]

/-- The decimal numeral of `m` left-padded with zeros to six characters
(`String(m).padStart(6, "0")`). -/
def zeroPad6 (m : Nat) : String :=
  String.mk (List.replicate (6 - (toString m).length) '0' ++ (toString m).toList)

/-- The characters `substr(2, 3).toUpperCase()` keeps of a random draw. -/
def randomSuffix (frac : List (Fin 36)) : List Char :=
  (jsToUpperCase (jsSubstr 2 3 (randomToString36 frac))).toList

/-! ## The `scheduledTime` format -/

/-- The number a decimal digit character denotes. -/
def digitValue (c : Char) : Nat := c.toNat - 48

/-- The format "HH:MM": exactly two hour digits denoting 00-23, a colon, exactly two
minute digits denoting 00-59. -/
def isHHMM (s : String) : Bool :=
  match s.toList with
  | [h1, h2, c, m1, m2] =>
    h1.isDigit && h2.isDigit && c == ':' && m1.isDigit && m2.isDigit
      && decide (10 * digitValue h1 + digitValue h2 ≤ 23)
      && decide (10 * digitValue m1 + digitValue m2 ≤ 59)
  | _ => false

/-- The format "H:MM": one hour digit, a colon, exactly two minute digits denoting
00-59. -/
def isHMM (s : String) : Bool :=
  match s.toList with
  | [h, c, m1, m2] =>
    h.isDigit && c == ':' && m1.isDigit && m2.isDigit
      && decide (10 * digitValue m1 + digitValue m2 ≤ 59)
  | _ => false

/-- The `scheduledTime` check of the middleware, `.matches(pattern)`. -/
def scheduledTimeCheck (s : String) : Bool := regexTest timePattern s

/-- The `scheduledTime` checks of the schema, `required` and `match`. -/
def scheduledTimeSchemaCheck (s : String) : Bool :=
  requiredString (some s) && matchOk timePattern (some s)

/-! ## The request validation middleware -/

/-- The validator.js functions the chains call whose code is outside the
repository: `isLength` with the option `max`, and `isISO8601`. -/
structure ValidatorLib where
  isLength : Nat → String → Bool
  isISO8601 : String → Bool

/-- The fields of `req.body` the chains of `validateVisitorRequest` read; a field is
a string, as the request form sends it, or is missing. -/
structure Body where
  visitorName : Option String := none
  visitorId : Option String := none
  visitorPhone : Option String := none
  purpose : Option String := none
  scheduledDate : Option String := none
  scheduledTime : Option String := none

/-- One validator of a chain with the text its `.withMessage(...)` attaches. -/
structure Check where
  passes : String → Bool
  message : String

/-- The string a validator receives: a missing field is the empty string. -/
def fieldValue (v : Option String) : String := v.getD ""

/-- The validator `.notEmpty()`. -/
def notEmpty (s : String) : Bool := s != ""

/-- A `body(field)` chain run as middleware: every validator of the chain runs on the
field (there is no `.bail()`), and each one that fails appends an error carrying its
message to the errors the request has collected so far. -/
def runChain (value : Option String) (checks : List Check) (errors : List String) :
    List String :=
  checks.foldl
    (fun errs ck => if ck.passes (fieldValue value) then errs else errs ++ [ck.message])
    errors

/-- The chain `body("visitorName")`. -/
def visitorNameChain (lib : ValidatorLib) : List Check :=
  [⟨notEmpty, "Visitor name is required"⟩,
   ⟨lib.isLength 100, "Visitor name cannot exceed 100 characters"⟩]

/-- The chain `body("visitorId")`. -/
def visitorIdChain (lib : ValidatorLib) : List Check :=
  [⟨notEmpty, "Visitor ID is required"⟩,
   ⟨lib.isLength 50, "Visitor ID cannot exceed 50 characters"⟩]

/-- The chain `body("visitorPhone")`. -/
def visitorPhoneChain : List Check :=
  [⟨notEmpty, "Visitor phone is required"⟩,
   ⟨regexTest phonePattern, "Please enter a valid phone number"⟩]

/-- The chain `body("purpose")`. -/
def purposeChain (lib : ValidatorLib) : List Check :=
  [⟨notEmpty, "Purpose of visit is required"⟩,
   ⟨lib.isLength 500, "Purpose cannot exceed 500 characters"⟩]

/-- The chain `body("scheduledDate")`. -/
def scheduledDateChain (lib : ValidatorLib) : List Check :=
  [⟨notEmpty, "Scheduled date is required"⟩,
   ⟨lib.isISO8601, "Please enter a valid date"⟩]

/-- The chain `body("scheduledTime")`. -/
def scheduledTimeChain : List Check :=
  [⟨notEmpty, "Scheduled time is required"⟩,
   ⟨regexTest timePattern, "Please enter time in HH:MM format"⟩]

/-- What a middleware hands on: `next()` or `next(new AppError(message, statusCode))`. -/
inductive Outcome
  | next
  | appError (message : String) (statusCode : Nat)
  deriving DecidableEq

/-- The middleware `handleValidationErrors`, given `errors.array().map(e => e.msg)`. -/
def handleValidationErrors (errors : List String) : Outcome :=
  if errors.isEmpty then Outcome.next
  else Outcome.appError (". ".intercalate errors) 400

/-- The middleware array `validateVisitorRequest`: the six chains in order, then
`handleValidationErrors`. -/
def validateVisitorRequest (lib : ValidatorLib) (b : Body) : Outcome :=
  let e1 := runChain b.visitorName (visitorNameChain lib) []
  let e2 := runChain b.visitorId (visitorIdChain lib) e1
  let e3 := runChain b.visitorPhone visitorPhoneChain e2
  let e4 := runChain b.purpose (purposeChain lib) e3
  let e5 := runChain b.scheduledDate (scheduledDateChain lib) e4
  let e6 := runChain b.scheduledTime scheduledTimeChain e5
  handleValidationErrors e6

/-- Every check of `validateVisitorRequest` paired with the value it is applied to,
in declaration order: field by field, and within a field in chain order. -/
def declaredChecks (lib : ValidatorLib) (b : Body) : List (String × Check) :=
  (visitorNameChain lib).map (fun ck => (fieldValue b.visitorName, ck))
    ++ (visitorIdChain lib).map (fun ck => (fieldValue b.visitorId, ck))
    ++ visitorPhoneChain.map (fun ck => (fieldValue b.visitorPhone, ck))
    ++ (purposeChain lib).map (fun ck => (fieldValue b.purpose, ck))
    ++ (scheduledDateChain lib).map (fun ck => (fieldValue b.scheduledDate, ck))
    ++ scheduledTimeChain.map (fun ck => (fieldValue b.scheduledTime, ck))

/-- The messages of the checks that fail, in declaration order. -/
def failingMessages (lib : ValidatorLib) (b : Body) : List String :=
  ((declaredChecks lib b).filter (fun p => !p.2.passes p.1)).map (fun p => p.2.message)

/-! ## Runs of saves and the state machine of the specification -/

/-- The invariant of a run of saves: a code is present exactly when `approved` was
persisted, an approved record has a code, and a present code is truthy. -/
def History.Consistent (h : History) : Prop :=
  (h.record.approvalCode.isSome = true ↔ Status.approved ∈ h.persisted)
  ∧ (h.record.status = Status.approved → h.record.approvalCode.isSome = true)
  ∧ (h.record.approvalCode.isSome = true → truthy h.record.approvalCode = true)

/-- The directed graph of the specification's state machine. -/
def edge : Status → Status → Bool
  | Status.pending, Status.approved => true
  | Status.pending, Status.declined => true
  | Status.pending, Status.expired => true
  | Status.approved, Status.checked_in => true
  | Status.checked_in, Status.checked_out => true
  | _, _ => false

/-! ## Example inputs

`1730764800000` is 2024-11-05T00:00:00Z, `1730810096789` is 12:34:56.789 the same
day and `1730851200000` is midnight of the next day; the server runs in UTC. -/

/-- A pending request dated at midnight of the current day. -/
def pendingToday : Stored :=
  { scheduledDate := 1730764800000, status := Status.pending, approvalCode := none }

/-- A pending request dated tomorrow. -/
def pendingTomorrow : Stored :=
  { scheduledDate := 1730851200000, status := Status.pending, approvalCode := none }

/-- An approved request dated tomorrow. -/
def approvedTomorrow : Stored :=
  { scheduledDate := 1730851200000, status := Status.approved,
    approvalCode := some "VIS096789I3Z" }

/-- A save at 12:34:56.789 that assigns `s`. -/
def saveAtNoon (s : Option Status) : SaveOp :=
  { assign := s, clock := Clock.instant 1730810096789, frac := [18, 3, 35, 1],
    revalidate := true }

/-- A well-formed submission for a visit today. -/
def candidateToday : Candidate :=
  { visitorName := some "Abebe Kebede", visitorId := some "ID-4471",
    visitorPhone := some "+251911223344", purpose := some "Maintenance",
    department := some "IT", requestedBy := some "64b7f0c2a1d3e4f5a6b7c8d9",
    scheduledDate := some 1730764800000, scheduledTime := some "14:30" }

/-! ## Decimal numerals -/

theorem toDigitsCore_append (f n : Nat) (ds : List Char) :
    Nat.toDigitsCore 10 f n ds = Nat.toDigitsCore 10 f n [] ++ ds := by
  induction f generalizing n ds with
  | zero => simp [Nat.toDigitsCore]
  | succ f ih =>
    simp only [Nat.toDigitsCore]
    split
    · simp
    · rw [ih (n / 10) (Nat.digitChar (n % 10) :: ds), ih (n / 10) [Nat.digitChar (n % 10)]]
      simp

theorem toDigitsCore_fuel (f g n : Nat) (ds : List Char) (hf : n < f) (hg : n < g) :
    Nat.toDigitsCore 10 f n ds = Nat.toDigitsCore 10 g n ds := by
  induction f generalizing g n ds with
  | zero => omega
  | succ f ih =>
    cases g with
    | zero => omega
    | succ g =>
      simp only [Nat.toDigitsCore]
      split
      · rfl
      · apply ih <;> omega

theorem toDigits_step (n : Nat) (h : 10 ≤ n) :
    Nat.toDigits 10 n = Nat.toDigits 10 (n / 10) ++ [Nat.digitChar (n % 10)] := by
  have h0 : n / 10 ≠ 0 := by omega
  unfold Nat.toDigits
  rw [Nat.toDigitsCore]
  simp only [h0, if_false]
  rw [toDigitsCore_append, toDigitsCore_fuel n (n / 10 + 1) (n / 10) [] (by omega) (by omega)]

theorem toDigits_small (n : Nat) (h : n < 10) :
    Nat.toDigits 10 n = [Nat.digitChar n] := by
  have h0 : n / 10 = 0 := by omega
  have h1 : n % 10 = n := by omega
  unfold Nat.toDigits
  rw [Nat.toDigitsCore]
  simp [h0, h1]

theorem toDigits_last (n : Nat) :
    ∃ pre, Nat.toDigits 10 n = pre ++ [Nat.digitChar (n % 10)] := by
  by_cases h : 10 ≤ n
  · exact ⟨_, toDigits_step n h⟩
  · refine ⟨[], ?_⟩
    have h1 : n % 10 = n := by omega
    rw [toDigits_small n (by omega), h1]; rfl

theorem toString_toList (n : Nat) : (toString n).toList = Nat.toDigits 10 n := rfl

theorem toDigits_six (n : Nat) (h : 100000 ≤ n) :
    ∃ pre, Nat.toDigits 10 n = pre ++ sixDigits n := by
  obtain ⟨pre, hpre⟩ := toDigits_last (n / 100000)
  refine ⟨pre, ?_⟩
  rw [toDigits_step n (by omega), toDigits_step (n / 10) (by omega),
    toDigits_step (n / 10 / 10) (by omega), toDigits_step (n / 10 / 10 / 10) (by omega),
    toDigits_step (n / 10 / 10 / 10 / 10) (by omega)]
  have e : n / 10 / 10 / 10 / 10 / 10 = n / 100000 := by omega
  rw [e, hpre]
  have e1 : n / 10 % 10 = n / 10 % 10 := rfl
  have e2 : n / 10 / 10 % 10 = n / 100 % 10 := by omega
  have e3 : n / 10 / 10 / 10 % 10 = n / 1000 % 10 := by omega
  have e4 : n / 10 / 10 / 10 / 10 % 10 = n / 10000 % 10 := by omega
  simp [sixDigits, e2, e3, e4]

theorem jsSliceLast_six (n : Nat) (h : 100000 ≤ n) :
    (jsSliceLast 6 (toString n)).toList = sixDigits n := by
  obtain ⟨pre, hpre⟩ := toDigits_six n h
  simp only [jsSliceLast, toString_toList, hpre]
  have hl : (pre ++ sixDigits n).length - 6 = pre.length := by simp [sixDigits]
  rw [hl]
  simp

theorem sixDigits_mod (n : Nat) : sixDigits (n % 1000000) = sixDigits n := by
  have e0 : n % 1000000 % 10 = n % 10 := by omega
  have e1 : n % 1000000 / 10 % 10 = n / 10 % 10 := by omega
  have e2 : n % 1000000 / 100 % 10 = n / 100 % 10 := by omega
  have e3 : n % 1000000 / 1000 % 10 = n / 1000 % 10 := by omega
  have e4 : n % 1000000 / 10000 % 10 = n / 10000 % 10 := by omega
  have e5 : n % 1000000 / 100000 % 10 = n / 100000 % 10 := by omega
  simp [sixDigits, e0, e1, e2, e3, e4, e5]

theorem zeroPad6_eq (m : Nat) (h : m < 1000000) : (zeroPad6 m).toList = sixDigits m := by
  have z : Nat.digitChar 0 = '0' := rfl
  have len : (toString m).length = (Nat.toDigits 10 m).length := rfl
  simp only [zeroPad6, toString_toList, len]
  by_cases h1 : m < 10
  · rw [toDigits_small m h1]
    have a1 : m / 100000 % 10 = 0 := by omega
    have a2 : m / 10000 % 10 = 0 := by omega
    have a3 : m / 1000 % 10 = 0 := by omega
    have a4 : m / 100 % 10 = 0 := by omega
    have a5 : m / 10 % 10 = 0 := by omega
    have a6 : m % 10 = m := by omega
    simp [sixDigits, a1, a2, a3, a4, a5, a6, z, List.replicate]
  by_cases h2 : m < 100
  · rw [toDigits_step m (by omega), toDigits_small (m / 10) (by omega)]
    have a1 : m / 100000 % 10 = 0 := by omega
    have a2 : m / 10000 % 10 = 0 := by omega
    have a3 : m / 1000 % 10 = 0 := by omega
    have a4 : m / 100 % 10 = 0 := by omega
    have a5 : m / 10 % 10 = m / 10 := by omega
    simp [sixDigits, a1, a2, a3, a4, a5, z, List.replicate]
  by_cases h3 : m < 1000
  · rw [toDigits_step m (by omega), toDigits_step (m / 10) (by omega),
      toDigits_small (m / 10 / 10) (by omega)]
    have a1 : m / 100000 % 10 = 0 := by omega
    have a2 : m / 10000 % 10 = 0 := by omega
    have a3 : m / 1000 % 10 = 0 := by omega
    have a4 : m / 100 % 10 = m / 10 / 10 := by omega
    simp [sixDigits, a1, a2, a3, a4, z, List.replicate]
  by_cases h4 : m < 10000
  · rw [toDigits_step m (by omega), toDigits_step (m / 10) (by omega),
      toDigits_step (m / 10 / 10) (by omega), toDigits_small (m / 10 / 10 / 10) (by omega)]
    have a1 : m / 100000 % 10 = 0 := by omega
    have a2 : m / 10000 % 10 = 0 := by omega
    have a3 : m / 1000 % 10 = m / 10 / 10 / 10 := by omega
    have a4 : m / 100 % 10 = m / 10 / 10 % 10 := by omega
    simp [sixDigits, a1, a2, a3, a4, z, List.replicate]
  by_cases h5 : m < 100000
  · rw [toDigits_step m (by omega), toDigits_step (m / 10) (by omega),
      toDigits_step (m / 10 / 10) (by omega), toDigits_step (m / 10 / 10 / 10) (by omega),
      toDigits_small (m / 10 / 10 / 10 / 10) (by omega)]
    have a1 : m / 100000 % 10 = 0 := by omega
    have a2 : m / 10000 % 10 = m / 10 / 10 / 10 / 10 := by omega
    have a3 : m / 1000 % 10 = m / 10 / 10 / 10 % 10 := by omega
    have a4 : m / 100 % 10 = m / 10 / 10 % 10 := by omega
    simp [sixDigits, a1, a2, a3, a4, z, List.replicate]
  · rw [toDigits_step m (by omega), toDigits_step (m / 10) (by omega),
      toDigits_step (m / 10 / 10) (by omega), toDigits_step (m / 10 / 10 / 10) (by omega),
      toDigits_step (m / 10 / 10 / 10 / 10) (by omega),
      toDigits_small (m / 10 / 10 / 10 / 10 / 10) (by omega)]
    have a1 : m / 100000 % 10 = m / 10 / 10 / 10 / 10 / 10 := by omega
    have a2 : m / 10000 % 10 = m / 10 / 10 / 10 / 10 % 10 := by omega
    have a3 : m / 1000 % 10 = m / 10 / 10 / 10 % 10 := by omega
    have a4 : m / 100 % 10 = m / 10 / 10 % 10 := by omega
    simp [sixDigits, a1, a2, a3, a4, List.replicate]

theorem digitChar_isDigit (k : Nat) (h : k < 10) : (Nat.digitChar k).isDigit = true := by
  interval_cases k <;> rfl

theorem sixDigits_isDigit (m : Nat) : ∀ c ∈ sixDigits m, c.isDigit = true := by
  intro c hc
  simp only [sixDigits, List.mem_cons, List.mem_singleton, List.not_mem_nil, or_false] at hc
  rcases hc with h | h | h | h | h | h <;> subst h <;> apply digitChar_isDigit <;> omega

/-! ## The approval code -/

theorem digit36_upper : ∀ d : Fin 36,
    (digit36 d).toUpper.isDigit = true ∨ (digit36 d).toUpper.isUpper = true := by
  decide

theorem randomSuffix_eq (frac : List (Fin 36)) :
    randomSuffix frac = ((frac.map digit36).take 3).map Char.toUpper := by
  unfold randomSuffix jsToUpperCase jsSubstr randomToString36
  by_cases h : frac = []
  · subst h; rfl
  · simp only [h, if_false]
    show List.map Char.toUpper (List.take 3 (List.drop 2 ("0." ++ String.mk (frac.map digit36)).data)) = _
    rw [String.data_append]
    rfl

theorem randomSuffix_length (frac : List (Fin 36)) : (randomSuffix frac).length ≤ 3 := by
  rw [randomSuffix_eq]; simp [List.length_take]

theorem randomSuffix_chars (frac : List (Fin 36)) :
    ∀ c ∈ randomSuffix frac, c.isDigit = true ∨ c.isUpper = true := by
  intro c hc
  rw [randomSuffix_eq, List.mem_map] at hc
  obtain ⟨a, ha, rfl⟩ := hc
  have ha2 := List.mem_of_mem_take ha
  rw [List.mem_map] at ha2
  obtain ⟨d, _, rfl⟩ := ha2
  exact digit36_upper d

theorem generateApprovalCode_toList (t : Nat) (frac : List (Fin 36)) (h : 100000 ≤ t) :
    (generateApprovalCode t frac).toList = ['V', 'I', 'S'] ++ sixDigits t ++ randomSuffix frac := by
  unfold generateApprovalCode
  show ("VIS" ++ jsSliceLast 6 (toString t) ++ _).data = _
  rw [String.data_append, String.data_append]
  have := jsSliceLast_six t h
  simp only [String.toList] at this
  rw [this]
  rfl

theorem generateApprovalCode_ne_empty (now : Nat) (frac : List (Fin 36)) :
    generateApprovalCode now frac ≠ "" := by
  intro h
  have h2 : (generateApprovalCode now frac).data = [] := by rw [h]
  unfold generateApprovalCode at h2
  rw [String.data_append, String.data_append] at h2
  simp at h2

theorem truthy_generated (now : Nat) (frac : List (Fin 36)) :
    truthy (some (generateApprovalCode now frac)) = true := by
  simp [truthy, generateApprovalCode_ne_empty]

/-- Claim C10: for every millisecond timestamp `t ≥ 100000` and every random draw, the
generated approval code is `"VIS"`, then the six decimal digits of `t mod 1000000`
zero-padded, then at most three characters each in `0-9` or `A-Z`; it has between 9
and 12 characters, and two timestamps with the same residue modulo 1000000 give the
same code. -/
theorem approvalCode_format (t : Nat) (frac : List (Fin 36)) (h : 100000 ≤ t) :
    ∃ suffix : List Char,
      generateApprovalCode t frac = "VIS" ++ zeroPad6 (t % 1000000) ++ String.mk suffix
      ∧ (zeroPad6 (t % 1000000)).length = 6
      ∧ (∀ c ∈ (zeroPad6 (t % 1000000)).toList, c.isDigit = true)
      ∧ suffix.length ≤ 3
      ∧ (∀ c ∈ suffix, c.isDigit = true ∨ c.isUpper = true)
      ∧ 9 ≤ (generateApprovalCode t frac).length
      ∧ (generateApprovalCode t frac).length ≤ 12
      ∧ (∀ t', 100000 ≤ t' → t' % 1000000 = t % 1000000 →
            generateApprovalCode t' frac = generateApprovalCode t frac) := by
  have hpad : (zeroPad6 (t % 1000000)).toList = sixDigits t := by
    rw [zeroPad6_eq _ (Nat.mod_lt _ (by norm_num)), sixDigits_mod]
  have hcode := generateApprovalCode_toList t frac h
  have hlen : (generateApprovalCode t frac).length = 9 + (randomSuffix frac).length := by
    show (generateApprovalCode t frac).toList.length = _
    rw [hcode]; simp [sixDigits]; omega
  refine ⟨randomSuffix frac, ?_, ?_, ?_, randomSuffix_length frac, randomSuffix_chars frac,
    ?_, ?_, ?_⟩
  · apply String.ext
    show (generateApprovalCode t frac).toList = _
    rw [hcode, String.data_append, String.data_append]
    simp only [String.toList] at hpad
    rw [hpad]
  · show (zeroPad6 (t % 1000000)).toList.length = 6
    rw [hpad]; rfl
  · rw [hpad]; exact sixDigits_isDigit t
  · omega
  · have := randomSuffix_length frac; omega
  · intro t' ht' hmod
    apply String.ext
    show (generateApprovalCode t' frac).toList = (generateApprovalCode t frac).toList
    rw [hcode, generateApprovalCode_toList t' frac ht', ← sixDigits_mod t', hmod, sixDigits_mod]

/-- The format of claim C10 at the timestamp `1730851200123` with the draw whose
base-36 digits are `i3z1`: the code is `VIS200123I3Z`. -/
theorem approvalCode_format_witness :
    100000 ≤ 1730851200123 ∧
    ∃ suffix : List Char,
      generateApprovalCode 1730851200123 [18, 3, 35, 1]
        = "VIS" ++ zeroPad6 (1730851200123 % 1000000) ++ String.mk suffix
      ∧ (zeroPad6 (1730851200123 % 1000000)).length = 6
      ∧ (∀ c ∈ (zeroPad6 (1730851200123 % 1000000)).toList, c.isDigit = true)
      ∧ suffix.length ≤ 3
      ∧ (∀ c ∈ suffix, c.isDigit = true ∨ c.isUpper = true)
      ∧ 9 ≤ (generateApprovalCode 1730851200123 [18, 3, 35, 1]).length
      ∧ (generateApprovalCode 1730851200123 [18, 3, 35, 1]).length ≤ 12
      ∧ (∀ t', 100000 ≤ t' → t' % 1000000 = 1730851200123 % 1000000 →
            generateApprovalCode t' [18, 3, 35, 1]
              = generateApprovalCode 1730851200123 [18, 3, 35, 1]) :=
  ⟨by decide, approvalCode_format 1730851200123 [18, 3, 35, 1] (by decide)⟩

/-! ## The hooks -/

theorem autoExpireHook_approvalCode (now : Nat) (d : Document) :
    (autoExpireHook now d).approvalCode = d.approvalCode := by
  unfold autoExpireHook; split <;> rfl

theorem autoExpireHook_scheduledDate (now : Nat) (d : Document) :
    (autoExpireHook now d).scheduledDate = d.scheduledDate := by
  unfold autoExpireHook; split <;> rfl

theorem approvalCodeHook_status (now : Nat) (frac : List (Fin 36)) (d : Document) :
    (approvalCodeHook now frac d).status = d.status := by
  unfold approvalCodeHook; split <;> rfl

theorem approvalCodeHook_scheduledDate (now : Nat) (frac : List (Fin 36)) (d : Document) :
    (approvalCodeHook now frac d).scheduledDate = d.scheduledDate := by
  unfold approvalCodeHook; split <;> rfl

theorem autoExpireHook_status (now : Nat) (d : Document) :
    (autoExpireHook now d).status =
      if d.status = Status.pending ∧ d.scheduledDate < (now : Int) then Status.expired
      else d.status := by
  unfold autoExpireHook
  by_cases h1 : d.status = Status.pending <;> by_cases h2 : d.scheduledDate < (now : Int) <;>
    simp [h1, h2]

theorem preSave_status (c : Clock) (frac : List (Fin 36)) (d : Document) :
    (preSave c frac d).status =
      if d.status = Status.pending ∧ d.scheduledDate < (c.expireAt : Int) then Status.expired
      else d.status := by
  unfold preSave
  rw [autoExpireHook_status, approvalCodeHook_status, approvalCodeHook_scheduledDate]

theorem preSave_approvalCode (c : Clock) (frac : List (Fin 36)) (d : Document) :
    (preSave c frac d).approvalCode =
      if d.statusModified = true ∧ d.status = Status.approved ∧ truthy d.approvalCode = false
      then some (generateApprovalCode c.codeAt frac) else d.approvalCode := by
  unfold preSave
  rw [autoExpireHook_approvalCode]
  unfold approvalCodeHook
  by_cases h1 : d.statusModified = true <;> by_cases h2 : d.status = Status.approved <;>
    by_cases h3 : truthy d.approvalCode = true <;> simp [h1, h2, h3]

/-- Claim C5: for every document and every current moment `now`, the auto-expire hook
changes the status exactly when the status is pending and `scheduledDate` is strictly
before `now`, and then the new status is expired; in every other case the document
is left exactly as it was. The date and the approval code are never touched. -/
theorem autoExpire_rule (now : Nat) (d : Document) :
    ((autoExpireHook now d).status ≠ d.status ↔
        (d.status = Status.pending ∧ d.scheduledDate < (now : Int)))
    ∧ ((d.status = Status.pending ∧ d.scheduledDate < (now : Int)) →
        (autoExpireHook now d).status = Status.expired)
    ∧ (¬ (d.status = Status.pending ∧ d.scheduledDate < (now : Int)) →
        autoExpireHook now d = d)
    ∧ (autoExpireHook now d).scheduledDate = d.scheduledDate
    ∧ (autoExpireHook now d).approvalCode = d.approvalCode := by
  refine ⟨?_, ?_, ?_, autoExpireHook_scheduledDate now d, autoExpireHook_approvalCode now d⟩
  · rw [autoExpireHook_status]
    constructor
    · intro h
      by_contra hc
      simp [hc] at h
    · intro h
      simp [h]
  · intro h
    rw [autoExpireHook_status]; simp [h]
  · intro h
    unfold autoExpireHook
    by_cases h1 : d.status = Status.pending <;> by_cases h2 : d.scheduledDate < (now : Int) <;>
      simp_all

/-- Claim C4: for every document that already carries an approval code (a truthy
`approvalCode`, which is how the hook itself tests for one), whatever its status and
modification flag, at whatever time and with whatever random draw, the approval code
after the save hooks equals the approval code before; the same holds when any status,
`approved` included, is assigned before the save. -/
theorem approvalCode_never_regenerated (c : Clock) (frac : List (Fin 36)) (d : Document)
    (h : truthy d.approvalCode = true) :
    (preSave c frac d).approvalCode = d.approvalCode
    ∧ ∀ s : Status, (preSave c frac (setStatus s d)).approvalCode = d.approvalCode := by
  constructor
  · rw [preSave_approvalCode]; simp [h]
  · intro s
    rw [preSave_approvalCode]
    simp [setStatus, h]

/-- The statement of claim C4 at an approved record that is approved again. -/
theorem approvalCode_never_regenerated_witness :
    truthy (load approvedTomorrow).approvalCode = true
    ∧ (preSave (Clock.instant 1730810096789) [7, 7, 7] (load approvedTomorrow)).approvalCode
        = some "VIS096789I3Z"
    ∧ ∀ s : Status,
        (preSave (Clock.instant 1730810096789) [7, 7, 7]
          (setStatus s (load approvedTomorrow))).approvalCode = some "VIS096789I3Z" :=
  ⟨by decide,
    approvalCode_never_regenerated (Clock.instant 1730810096789) [7, 7, 7]
      (load approvedTomorrow) (by decide)⟩

/-! ## Saving -/

theorem document_status (op : SaveOp) (r : Stored) :
    (op.document r).status = op.assign.getD r.status := by
  unfold SaveOp.document; cases op.assign <;> rfl

theorem document_scheduledDate (op : SaveOp) (r : Stored) :
    (op.document r).scheduledDate = r.scheduledDate := by
  unfold SaveOp.document; cases op.assign <;> rfl

theorem document_approvalCode (op : SaveOp) (r : Stored) :
    (op.document r).approvalCode = r.approvalCode := by
  unfold SaveOp.document; cases op.assign <;> rfl

theorem document_statusModified (op : SaveOp) (r : Stored) :
    (op.document r).statusModified = decide (op.assign.getD r.status ≠ r.status) := by
  unfold SaveOp.document; cases op.assign <;> simp [setStatus, load]

theorem saveRecord_ok {tz : Int} {r r' : Stored} {op : SaveOp}
    (h : saveRecord tz r op = Except.ok r') :
    r' = (preSave op.clock op.frac (op.document r)).toStored := by
  unfold saveRecord Document.save at h
  split at h
  · cases h
  · injection h with h; exact h.symm

theorem saveRecord_status {tz : Int} {r r' : Stored} {op : SaveOp}
    (h : saveRecord tz r op = Except.ok r') :
    r'.status =
      if op.assign.getD r.status = Status.pending ∧ r.scheduledDate < (op.clock.expireAt : Int)
      then Status.expired else op.assign.getD r.status := by
  rw [saveRecord_ok h]
  show (preSave op.clock op.frac (op.document r)).status = _
  rw [preSave_status, document_status, document_scheduledDate]

theorem saveRecord_approvalCode {tz : Int} {r r' : Stored} {op : SaveOp}
    (h : saveRecord tz r op = Except.ok r') :
    r'.approvalCode =
      if op.assign.getD r.status ≠ r.status ∧ op.assign.getD r.status = Status.approved
          ∧ truthy r.approvalCode = false
      then some (generateApprovalCode op.clock.codeAt op.frac) else r.approvalCode := by
  rw [saveRecord_ok h]
  show (preSave op.clock op.frac (op.document r)).approvalCode = _
  rw [preSave_approvalCode, document_status, document_approvalCode, document_statusModified]
  simp

theorem step_consistent (tz : Int) (h : History) (op : SaveOp) (hc : h.Consistent) :
    (h.step tz op).Consistent := by
  unfold History.step
  split
  · next r hr =>
    obtain ⟨h1, h2, h3⟩ := hc
    have hs := saveRecord_status hr
    have ha := saveRecord_approvalCode hr
    have hgen := truthy_generated op.clock.codeAt op.frac
    have hstat : r.status = Status.approved ↔ op.assign.getD h.record.status = Status.approved := by
      rw [hs]; split
      · next hp => simp [hp.1]
      · rfl
    by_cases hA : op.assign.getD h.record.status = Status.approved
    · have hr' : r.status = Status.approved := hstat.mpr hA
      have hsome : r.approvalCode.isSome = true := by
        rw [ha]; split
        · rfl
        · next hn =>
          by_cases hm : op.assign.getD h.record.status ≠ h.record.status
          · have ht : truthy h.record.approvalCode = true := by
              by_contra hf
              exact hn ⟨hm, hA, by simpa using hf⟩
            cases hcode : h.record.approvalCode with
            | none => rw [hcode] at ht; simp [truthy] at ht
            | some c => rfl
          · have : h.record.status = Status.approved := by
              have := not_not.mp hm
              rw [← this]; exact hA
            exact h2 this
      have htr : truthy r.approvalCode = true := by
        rw [ha] at hsome ⊢
        split
        · exact hgen
        · next hn =>
          rw [if_neg hn] at hsome
          exact h3 hsome
      refine ⟨?_, fun _ => hsome, fun _ => htr⟩
      simp [hsome, hr']
    · have hr' : r.status ≠ Status.approved := fun e => hA (hstat.mp e)
      have hcode : r.approvalCode = h.record.approvalCode := by
        rw [ha]; simp [hA]
      refine ⟨?_, fun e => absurd e hr', ?_⟩
      · rw [hcode, h1]; simp [hr', Ne.symm hr']
      · rw [hcode]; exact h3
  · exact hc

theorem foldl_consistent (tz : Int) (ops : List SaveOp) (h : History) (hc : h.Consistent) :
    (ops.foldl (History.step tz) h).Consistent := by
  induction ops generalizing h with
  | nil => exact hc
  | cons op ops ih => exact ih _ (step_consistent tz h op hc)

/-- Claim C3: for every record with status pending and no approval code, and every
finite run of saves (each with an arbitrary status assignment, clock reads and random
draw, and no write to `approvalCode`), after the run the approval code is present if
and only if some save of the run persisted the status approved. Every prefix of a run
is a run, so this holds after each save. -/
theorem approvalCode_iff_approved_persisted (tz : Int) (r : Stored) (ops : List SaveOp)
    (hs : r.status = Status.pending) (hc : r.approvalCode = none) :
    (runSaves tz r ops).record.approvalCode.isSome = true
      ↔ Status.approved ∈ (runSaves tz r ops).persisted := by
  have h0 : History.Consistent { record := r, persisted := [] } := by
    refine ⟨?_, ?_, ?_⟩
    · simp [hc]
    · intro h; simp [hs] at h
    · intro h; simp [hc] at h
  exact (foldl_consistent tz ops _ h0).1

/-- The statement of claim C3 on a run that approves and then declines a request
dated tomorrow: the code generated by the first save is still present. -/
theorem approvalCode_iff_approved_persisted_witness :
    pendingTomorrow.status = Status.pending
    ∧ pendingTomorrow.approvalCode = none
    ∧ (runSaves 0 pendingTomorrow
          [saveAtNoon (some Status.approved), saveAtNoon (some Status.declined)]).persisted
        = [Status.declined, Status.approved]
    ∧ ((runSaves 0 pendingTomorrow
          [saveAtNoon (some Status.approved),
           saveAtNoon (some Status.declined)]).record.approvalCode.isSome = true
        ↔ Status.approved ∈ (runSaves 0 pendingTomorrow
          [saveAtNoon (some Status.approved), saveAtNoon (some Status.declined)]).persisted) :=
  ⟨rfl, rfl, rfl,
    approvalCode_iff_approved_persisted 0 pendingTomorrow
      [saveAtNoon (some Status.approved), saveAtNoon (some Status.declined)] rfl rfl⟩

/-- What `create` stores for a candidate that passes validation: the request is
pending unless its date is strictly before the clock read of the auto-expire hook, in
which case it is expired; no approval code is generated either way. -/
theorem create_outcome (tz : Int) (c : Clock) (frac : List (Fin 36)) (cand : Candidate)
    (hv : schemaValid tz c.validateAt cand = true) :
    ∃ date, cand.scheduledDate = some date ∧ startOfLocalDay tz c.validateAt ≤ date
      ∧ create tz c frac cand = Except.ok
          { scheduledDate := date,
            status := if date < (c.expireAt : Int) then Status.expired else Status.pending,
            approvalCode := none } := by
  unfold create
  cases hd : cand.scheduledDate with
  | none =>
    unfold schemaValid at hv
    rw [hd] at hv
    simp at hv
  | some date =>
    have hge : startOfLocalDay tz c.validateAt ≤ date := by
      unfold schemaValid at hv
      rw [hd] at hv
      simp only [Bool.and_eq_true] at hv
      have := hv.1.1.2
      simpa [scheduledDateValidator] using this
    refine ⟨date, rfl, hge, ?_⟩
    simp only [hv, if_true]
    have hs := preSave_status c frac
      { scheduledDate := date, status := Status.pending, statusModified := false,
        approvalCode := none }
    have ha := preSave_approvalCode c frac
      { scheduledDate := date, status := Status.pending, statusModified := false,
        approvalCode := none }
    have hsd : (preSave c frac
      { scheduledDate := date, status := Status.pending, statusModified := false,
        approvalCode := none }).scheduledDate = date := by
      unfold preSave
      rw [autoExpireHook_scheduledDate, approvalCodeHook_scheduledDate]
    simp only [true_and, Bool.false_eq_true, false_and, if_false] at hs ha
    simp only [Document.toStored, hs, ha, hsd]

/-- Claim C1 says that every candidate that passes validation is stored with status
pending and no approval code. The code departs from it on this input: a well-formed
request for a visit today (dated at the midnight that starts the current day, which the
`scheduledDate` validator accepts), created at 12:34:56.789, passes validation and is
stored with status expired. No approval code is generated. -/
theorem create_today_is_saved_expired :
    schemaValid 0 1730810096789 candidateToday = true
    ∧ startOfLocalDay 0 1730810096789 ≤ 1730764800000
    ∧ create 0 (Clock.instant 1730810096789) [18, 3, 35, 1] candidateToday
        = Except.ok { scheduledDate := 1730764800000, status := Status.expired,
                      approvalCode := none } := by
  refine ⟨by decide, by decide, rfl⟩

/-- Claim C2 fails: a stored pending request dated at midnight today, approved at
12:34:56.789 the same day (so its `scheduledDate` is strictly before the current
moment), is saved with status approved and a freshly generated approval code. -/
theorem late_approval_is_recorded :
    pendingToday.status = Status.pending
    ∧ pendingToday.scheduledDate < ((saveAtNoon (some Status.approved)).clock.expireAt : Int)
    ∧ saveRecord 0 pendingToday (saveAtNoon (some Status.approved))
        = Except.ok { scheduledDate := 1730764800000, status := Status.approved,
                      approvalCode := some "VIS096789I3Z" } := by
  refine ⟨rfl, by decide, rfl⟩

/-- Claim C2 as the code has it: for every stored pending record whose `scheduledDate`
is strictly before the clock read of the auto-expire hook and every save of it that
succeeds, a save that leaves the status pending persists expired and leaves the
approval code as it was, while a save that assigns approved persists approved and
generates an approval code unless the record already carries one. -/
theorem late_save_outcome (tz : Int) (r r' : Stored) (op : SaveOp)
    (hp : r.status = Status.pending)
    (hd : r.scheduledDate < (op.clock.expireAt : Int))
    (hok : saveRecord tz r op = Except.ok r') :
    ((op.assign = none ∨ op.assign = some Status.pending) →
        r'.status = Status.expired ∧ r'.approvalCode = r.approvalCode)
    ∧ (op.assign = some Status.approved →
        r'.status = Status.approved
        ∧ r'.approvalCode =
            if truthy r.approvalCode = true then r.approvalCode
            else some (generateApprovalCode op.clock.codeAt op.frac)) := by
  have hs := saveRecord_status hok
  have ha := saveRecord_approvalCode hok
  constructor
  · intro h
    rcases h with h | h <;> rw [h] at hs ha <;> simp [hp, hd] at hs ha <;> exact ⟨hs, ha⟩
  · intro h
    rw [h] at hs ha
    simp [hp] at hs ha
    refine ⟨hs, ?_⟩
    rw [ha]
    by_cases ht : truthy r.approvalCode = true <;> simp [ht]

/-- The statement of claim C2 as amended at the request dated midnight today and
approved at 12:34:56.789. -/
theorem late_save_outcome_witness :
    pendingToday.status = Status.pending
    ∧ pendingToday.scheduledDate < ((saveAtNoon (some Status.approved)).clock.expireAt : Int)
    ∧ (((saveAtNoon (some Status.approved)).assign = none
          ∨ (saveAtNoon (some Status.approved)).assign = some Status.pending) →
        Status.approved = Status.expired ∧ some "VIS096789I3Z" = pendingToday.approvalCode)
    ∧ ((saveAtNoon (some Status.approved)).assign = some Status.approved →
        Status.approved = Status.approved
        ∧ some "VIS096789I3Z" =
            if truthy pendingToday.approvalCode = true then pendingToday.approvalCode
            else some (generateApprovalCode (saveAtNoon (some Status.approved)).clock.codeAt
                        (saveAtNoon (some Status.approved)).frac)) :=
  ⟨rfl, by decide,
    late_save_outcome 0 pendingToday
      { scheduledDate := 1730764800000, status := Status.approved,
        approvalCode := some "VIS096789I3Z" }
      (saveAtNoon (some Status.approved)) rfl (by decide) rfl⟩

/-- Claim C6 fails: a save that assigns pending to an approved request dated tomorrow
succeeds and persists pending, and approved to pending is not an edge of the graph. -/
theorem approved_moves_back_to_pending :
    saveRecord 0 approvedTomorrow (saveAtNoon (some Status.pending))
        = Except.ok { scheduledDate := 1730851200000, status := Status.pending,
                      approvalCode := some "VIS096789I3Z" }
    ∧ Status.pending ≠ approvedTomorrow.status
    ∧ edge approvedTomorrow.status Status.pending = false := by
  refine ⟨rfl, by decide, rfl⟩

/-- Claim C6 as the code has it: every save that succeeds persists the status the
caller assigned (the stored status when none was assigned), except that a pending
status whose `scheduledDate` is strictly before the clock read of the auto-expire hook
is persisted as expired; and the model checks no transition graph, since for every
pair of statuses `s`, `s'` some successful save moves a record from `s` to `s'`. -/
theorem save_persists_assigned_status :
    (∀ (tz : Int) (r r' : Stored) (op : SaveOp), saveRecord tz r op = Except.ok r' →
      r'.status =
        if op.assign.getD r.status = Status.pending
            ∧ r.scheduledDate < (op.clock.expireAt : Int)
        then Status.expired else op.assign.getD r.status)
    ∧ (∀ s s' : Status, ∃ (r r' : Stored) (op : SaveOp),
        r.status = s ∧ saveRecord 0 r op = Except.ok r' ∧ r'.status = s') := by
  constructor
  · intro tz r r' op h
    exact saveRecord_status h
  · intro s s'
    refine ⟨{ scheduledDate := 1730851200000, status := s, approvalCode := none },
      (preSave (saveAtNoon (some s')).clock (saveAtNoon (some s')).frac
        ((saveAtNoon (some s')).document
          { scheduledDate := 1730851200000, status := s, approvalCode := none })).toStored,
      saveAtNoon (some s'), rfl, ?_, ?_⟩
    · have hv : scheduledDateValidator 0 1730810096789 1730851200000 = true := by decide
      unfold saveRecord Document.save
      rw [document_scheduledDate]
      simp [saveAtNoon, Clock.instant, hv]
    · show (preSave _ _ _).status = s'
      rw [preSave_status, document_status, document_scheduledDate]
      simp [saveAtNoon, Clock.instant]

/-! ## The time pattern -/

theorem isDigit_iff (c : Char) : c.isDigit = true ↔ 48 ≤ c.toNat ∧ c.toNat ≤ 57 := by
  unfold Char.isDigit Char.toNat
  simp only [ge_iff_le, Bool.and_eq_true, decide_eq_true_eq, UInt32.le_def, BitVec.le_def]
  exact Iff.rfl

theorem char_eq_of_toNat (c : Char) (n : Nat) (h : c.toNat = n) : c = Char.ofNat n := by
  subst h
  exact (Char.ofNat_toNat c).symm

theorem mem_digits_of_isDigit (c : Char) (h : c.isDigit = true) :
    c ∈ "0123456789".toList := by
  rw [isDigit_iff] at h
  obtain ⟨h1, h2⟩ := h
  have := char_eq_of_toNat c c.toNat rfl
  generalize c.toNat = n at *
  subst this
  interval_cases n <;> decide

theorem mem_digits_iff (c : Char) : c ∈ "0123456789".toList ↔ c.isDigit = true := by
  constructor
  · revert c; decide
  · exact mem_digits_of_isDigit c

theorem mem_01_iff (c : Char) :
    c ∈ "01".toList ↔ c.isDigit = true ∧ digitValue c ≤ 1 := by
  constructor
  · revert c; decide
  · intro hh
    have hm := mem_digits_of_isDigit c hh.1
    have hv := hh.2
    clear hh
    revert c; decide

theorem mem_0123_iff (c : Char) :
    c ∈ "0123".toList ↔ c.isDigit = true ∧ digitValue c ≤ 3 := by
  constructor
  · revert c; decide
  · intro hh
    have hm := mem_digits_of_isDigit c hh.1
    have hv := hh.2
    clear hh
    revert c; decide

theorem mem_012345_iff (c : Char) :
    c ∈ "012345".toList ↔ c.isDigit = true ∧ digitValue c ≤ 5 := by
  constructor
  · revert c; decide
  · intro hh
    have hm := mem_digits_of_isDigit c hh.1
    have hv := hh.2
    clear hh
    revert c; decide

theorem eq_two_iff (c : Char) : c = '2' ↔ c.isDigit = true ∧ digitValue c = 2 := by
  constructor
  · rintro rfl; decide
  · intro hh
    have hm := mem_digits_of_isDigit c hh.1
    have hv := hh.2
    clear hh
    revert c; decide

theorem digitValue_le (c : Char) (h : c.isDigit = true) : digitValue c ≤ 9 := by
  have hm := mem_digits_of_isDigit c h
  clear h
  revert c; decide

theorem foldr_char_rmatch (l : List Char) (x : List Char) :
    (l.foldr (fun c r => RegularExpression.char c + r) 0).rmatch x = true
      ↔ ∃ c ∈ l, x = [c] := by
  induction l with
  | nil => simp [RegularExpression.zero_rmatch]
  | cons a l ih =>
    simp only [List.foldr_cons, RegularExpression.add_rmatch_iff,
      RegularExpression.char_rmatch_iff, ih, List.mem_cons]
    constructor
    · rintro (h | ⟨c, hc, h⟩)
      · exact ⟨a, Or.inl rfl, h⟩
      · exact ⟨c, Or.inr hc, h⟩
    · rintro ⟨c, hc | hc, h⟩
      · subst hc; exact Or.inl h
      · exact Or.inr ⟨c, hc, h⟩

theorem oneOf_rmatch (cs : String) (x : List Char) :
    (oneOf cs).rmatch x = true ↔ ∃ c ∈ cs.toList, x = [c] :=
  foldr_char_rmatch cs.toList x

theorem opt_rmatch (r : RegularExpression Char) (x : List Char) :
    (opt r).rmatch x = true ↔ x = [] ∨ r.rmatch x = true := by
  unfold opt
  rw [RegularExpression.add_rmatch_iff, RegularExpression.one_rmatch_iff]

/-- The strings the time pattern accepts, character by character. -/
theorem timePattern_rmatch (x : List Char) :
    timePattern.rmatch x = true ↔
      (∃ h m1 m2, x = [h, ':', m1, m2] ∧ h.isDigit = true
          ∧ (m1.isDigit = true ∧ digitValue m1 ≤ 5) ∧ m2.isDigit = true)
      ∨ (∃ h1 h2 m1 m2, x = [h1, h2, ':', m1, m2]
          ∧ (((h1.isDigit = true ∧ digitValue h1 ≤ 1) ∧ h2.isDigit = true)
              ∨ ((h1.isDigit = true ∧ digitValue h1 = 2)
                  ∧ (h2.isDigit = true ∧ digitValue h2 ≤ 3)))
          ∧ (m1.isDigit = true ∧ digitValue m1 ≤ 5) ∧ m2.isDigit = true) := by
  unfold timePattern
  simp only [RegularExpression.mul_rmatch_iff, RegularExpression.add_rmatch_iff,
    RegularExpression.char_rmatch_iff, oneOf_rmatch, opt_rmatch, mem_digits_iff, mem_01_iff,
    mem_0123_iff, mem_012345_iff]
  constructor
  · rintro ⟨t3, u3, rfl, ⟨t2, u2, rfl, ⟨t1, u1, rfl, hhour, rfl⟩, ⟨m1, hm1, rfl⟩⟩, ⟨m2, hm2, rfl⟩⟩
    rcases hhour with ⟨a, b, rfl, (rfl | ⟨h1, hh1, rfl⟩), ⟨h2, hh2, rfl⟩⟩
      | ⟨a, b, rfl, rfl, ⟨h2, hh2, rfl⟩⟩
    · exact Or.inl ⟨h2, m1, m2, rfl, hh2, hm1, hm2⟩
    · exact Or.inr ⟨h1, h2, m1, m2, rfl, Or.inl ⟨hh1, hh2⟩, hm1, hm2⟩
    · exact Or.inr ⟨'2', h2, m1, m2, rfl, Or.inr ⟨(eq_two_iff '2').mp rfl, hh2⟩, hm1, hm2⟩
  · rintro (⟨h, m1, m2, rfl, hh, hm1, hm2⟩ | ⟨h1, h2, m1, m2, rfl, hhour, hm1, hm2⟩)
    · exact ⟨[h, ':', m1], [m2], rfl, ⟨[h, ':'], [m1], rfl, ⟨[h], [':'], rfl,
        Or.inl ⟨[], [h], rfl, Or.inl rfl, ⟨h, hh, rfl⟩⟩, rfl⟩, ⟨m1, hm1, rfl⟩⟩, ⟨m2, hm2, rfl⟩⟩
    · refine ⟨[h1, h2, ':', m1], [m2], rfl, ⟨[h1, h2, ':'], [m1], rfl, ⟨[h1, h2], [':'], rfl,
        ?_, rfl⟩, ⟨m1, hm1, rfl⟩⟩, ⟨m2, hm2, rfl⟩⟩
      rcases hhour with ⟨hh1, hh2⟩ | ⟨hh1, hh2⟩
      · exact Or.inl ⟨[h1], [h2], rfl, Or.inr ⟨h1, hh1, rfl⟩, ⟨h2, hh2, rfl⟩⟩
      · have := (eq_two_iff h1).mpr hh1
        subst this
        exact Or.inr ⟨['2'], [h2], rfl, rfl, ⟨h2, hh2, rfl⟩⟩

theorem isHMM_iff (s : String) :
    isHMM s = true ↔ ∃ h m1 m2, s.toList = [h, ':', m1, m2] ∧ h.isDigit = true
      ∧ (m1.isDigit = true ∧ digitValue m1 ≤ 5) ∧ m2.isDigit = true := by
  unfold isHMM
  constructor
  · intro hs
    split at hs
    · next h c m1 m2 hx =>
      simp only [Bool.and_eq_true, beq_iff_eq, decide_eq_true_eq] at hs
      obtain ⟨⟨⟨⟨hh, hc⟩, hm1⟩, hm2⟩, hmin⟩ := hs
      subst hc
      have := digitValue_le m2 hm2
      exact ⟨h, m1, m2, hx, hh, ⟨hm1, by omega⟩, hm2⟩
    · cases hs
  · rintro ⟨h, m1, m2, hx, hh, ⟨hm1, hv1⟩, hm2⟩
    have := digitValue_le m2 hm2
    rw [hx]
    simp only [Bool.and_eq_true, beq_iff_eq, decide_eq_true_eq]
    exact ⟨⟨⟨⟨hh, trivial⟩, hm1⟩, hm2⟩, by omega⟩

theorem isHHMM_iff (s : String) :
    isHHMM s = true ↔ ∃ h1 h2 m1 m2, s.toList = [h1, h2, ':', m1, m2]
      ∧ (((h1.isDigit = true ∧ digitValue h1 ≤ 1) ∧ h2.isDigit = true)
          ∨ ((h1.isDigit = true ∧ digitValue h1 = 2)
              ∧ (h2.isDigit = true ∧ digitValue h2 ≤ 3)))
      ∧ (m1.isDigit = true ∧ digitValue m1 ≤ 5) ∧ m2.isDigit = true := by
  unfold isHHMM
  constructor
  · intro hs
    split at hs
    · next h1 h2 c m1 m2 hx =>
      simp only [Bool.and_eq_true, beq_iff_eq, decide_eq_true_eq] at hs
      obtain ⟨⟨⟨⟨⟨⟨hh1, hh2⟩, hc⟩, hm1⟩, hm2⟩, hhour⟩, hmin⟩ := hs
      subst hc
      have b2 := digitValue_le h2 hh2
      have b4 := digitValue_le m2 hm2
      refine ⟨h1, h2, m1, m2, hx, ?_, ⟨hm1, by omega⟩, hm2⟩
      by_cases hle : digitValue h1 ≤ 1
      · exact Or.inl ⟨⟨hh1, hle⟩, hh2⟩
      · exact Or.inr ⟨⟨hh1, by omega⟩, ⟨hh2, by omega⟩⟩
    · cases hs
  · rintro ⟨h1, h2, m1, m2, hx, hhour, ⟨hm1, hv1⟩, hm2⟩
    have b4 := digitValue_le m2 hm2
    rw [hx]
    simp only [Bool.and_eq_true, beq_iff_eq, decide_eq_true_eq]
    rcases hhour with ⟨⟨hh1, hv⟩, hh2⟩ | ⟨⟨hh1, hv⟩, ⟨hh2, hv2⟩⟩
    · have b2 := digitValue_le h2 hh2
      exact ⟨⟨⟨⟨⟨⟨hh1, hh2⟩, trivial⟩, hm1⟩, hm2⟩, by omega⟩, by omega⟩
    · exact ⟨⟨⟨⟨⟨⟨hh1, hh2⟩, trivial⟩, hm1⟩, hm2⟩, by omega⟩, by omega⟩

/-- Claim C9 fails: the string `9:30` is accepted by the check of the middleware and
by the checks of the schema, and it is not in the format HH:MM, having one hour
digit. -/
theorem single_digit_hour_accepted :
    scheduledTimeCheck "9:30" = true ∧ scheduledTimeSchemaCheck "9:30" = true
      ∧ isHHMM "9:30" = false := by
  decide

/-- Claim C9 as the code has it: for every string `s`, the `scheduledTime` check
accepts `s` if and only if `s` is in the format HH:MM (two hour digits denoting 00-23,
a colon, two minute digits denoting 00-59) or in the format H:MM (one hour digit, a
colon, two minute digits denoting 00-59); the schema's checks and the middleware's
check accept the same strings. -/
theorem scheduledTime_accepts_iff (s : String) :
    (scheduledTimeCheck s = true ↔ (isHHMM s = true ∨ isHMM s = true))
    ∧ scheduledTimeSchemaCheck s = scheduledTimeCheck s := by
  have key : scheduledTimeCheck s = true ↔ (isHHMM s = true ∨ isHMM s = true) := by
    unfold scheduledTimeCheck regexTest
    rw [timePattern_rmatch, isHHMM_iff, isHMM_iff, or_comm]
  refine ⟨key, ?_⟩
  unfold scheduledTimeSchemaCheck requiredString matchOk
  by_cases he : s = ""
  · subst he; decide
  · have h1 : (s != "") = true := by simpa using he
    have h2 : (s == "") = false := by simpa using he
    simp only [h1, h2, Bool.true_and, Bool.false_or, scheduledTimeCheck]

/-! ## The validation middleware -/

theorem runChain_eq (value : Option String) (checks : List Check) (errors : List String) :
    runChain value checks errors =
      errors ++ ((checks.map (fun ck => (fieldValue value, ck))).filter
        (fun p => !p.2.passes p.1)).map (fun p => p.2.message) := by
  unfold runChain
  induction checks generalizing errors with
  | nil => simp
  | cons ck cks ih =>
    rw [List.foldl_cons, ih]
    by_cases h : ck.passes (fieldValue value) = true
    · simp [h]
    · simp [h]

theorem validateVisitorRequest_eq (lib : ValidatorLib) (b : Body) :
    validateVisitorRequest lib b = handleValidationErrors (failingMessages lib b) := by
  unfold validateVisitorRequest failingMessages declaredChecks
  simp only [runChain_eq, List.filter_append, List.map_append, List.nil_append,
    List.append_assoc]

theorem failingMessages_eq_nil (lib : ValidatorLib) (b : Body) :
    failingMessages lib b = [] ↔ ∀ p ∈ declaredChecks lib b, p.2.passes p.1 = true := by
  unfold failingMessages
  rw [List.map_eq_nil_iff, List.filter_eq_nil_iff]
  simp

/-- Claim C8: the checks of `validateVisitorRequest` are the twelve listed, in
declaration order; for every request body the middleware continues without an error
if and only if every check passes, and otherwise it hands on a single error with
status 400 whose message is the messages of all failing checks, in declaration order,
joined by `". "`. In particular a body missing both `visitorName` and `scheduledTime`
is told about both. -/
theorem validateVisitorRequest_reports_every_failure (lib : ValidatorLib) (b : Body) :
    (declaredChecks lib b).map (fun p => p.2.message) =
        ["Visitor name is required", "Visitor name cannot exceed 100 characters",
         "Visitor ID is required", "Visitor ID cannot exceed 50 characters",
         "Visitor phone is required", "Please enter a valid phone number",
         "Purpose of visit is required", "Purpose cannot exceed 500 characters",
         "Scheduled date is required", "Please enter a valid date",
         "Scheduled time is required", "Please enter time in HH:MM format"]
    ∧ (validateVisitorRequest lib b = Outcome.next
        ↔ ∀ p ∈ declaredChecks lib b, p.2.passes p.1 = true)
    ∧ ((∃ p ∈ declaredChecks lib b, p.2.passes p.1 = false) →
        validateVisitorRequest lib b
          = Outcome.appError (". ".intercalate (failingMessages lib b)) 400)
    ∧ (b.visitorName = none → b.scheduledTime = none →
        validateVisitorRequest lib b
          = Outcome.appError (". ".intercalate (failingMessages lib b)) 400
        ∧ "Visitor name is required" ∈ failingMessages lib b
        ∧ "Scheduled time is required" ∈ failingMessages lib b) := by
  have hnil := failingMessages_eq_nil lib b
  have hfail : (∃ p ∈ declaredChecks lib b, p.2.passes p.1 = false) →
      validateVisitorRequest lib b
        = Outcome.appError (". ".intercalate (failingMessages lib b)) 400 := by
    rintro ⟨p, hp, hf⟩
    have hne : failingMessages lib b ≠ [] := by
      intro h
      have := hnil.mp h p hp
      rw [hf] at this; cases this
    rw [validateVisitorRequest_eq, handleValidationErrors]
    cases hl : failingMessages lib b with
    | nil => exact absurd hl hne
    | cons a l => rfl
  refine ⟨rfl, ?_, hfail, ?_⟩
  · rw [validateVisitorRequest_eq, ← hnil, handleValidationErrors]
    cases hl : failingMessages lib b with
    | nil => simp
    | cons a l => simp
  · intro hn ht
    refine ⟨hfail ⟨(fieldValue b.visitorName, ⟨notEmpty, "Visitor name is required"⟩), ?_, ?_⟩,
      ?_, ?_⟩
    · simp [declaredChecks, visitorNameChain]
    · simp [hn, fieldValue, notEmpty]
    · unfold failingMessages
      rw [List.mem_map]
      refine ⟨(fieldValue b.visitorName, ⟨notEmpty, "Visitor name is required"⟩), ?_, rfl⟩
      rw [List.mem_filter]
      refine ⟨by simp [declaredChecks, visitorNameChain], by simp [hn, fieldValue, notEmpty]⟩
    · unfold failingMessages
      rw [List.mem_map]
      refine ⟨(fieldValue b.scheduledTime, ⟨notEmpty, "Scheduled time is required"⟩), ?_, rfl⟩
      rw [List.mem_filter]
      refine ⟨by simp [declaredChecks, scheduledTimeChain], by simp [ht, fieldValue, notEmpty]⟩

end Vms
